import Mathlib

set_option linter.unusedVariables false

/-!
Verification development for the obsidian-ai-chat plugin core: the streaming
response engine and conversation/version state model.

The definitions below are shallow embeddings of the TypeScript source:
- the transcript data model from common.ts (ChatSwipe, ChatEntry, ChatHistory),
- the stream-event folding performed by ChatView.makeRequest together with
  ChatView.finishEntry and ChatView.cleanEntry (view.ts),
- the context assembler, capability parser and transport of the
  OpenAICompatibleAPI (api.ts),
- the Cohere line-buffering chunk handler (CohereAPI.handleChunk in api.ts).

JavaScript values are modelled as follows: a `T | null` or possibly-undefined
field becomes `Option T`; a JS number holding an integer index becomes `Int`
(so that out-of-range and negative indices are representable, matching the
runtime checks such as Number.isInteger and comparisons in the source);
strings stay `String`.  Binary image data and object URLs belong to the Asset
Codec component, which is out of scope for the claims below, so an image asset
is abstracted to the data URL string it was created from.
-/

/-- ImageAsset (images.ts), abstracted to the data URL string that produced it.
The blob, mime and object-URL fields of the codec component are not needed by
any claim here. -/
structure ImageAsset where
  url : String
  deriving DecidableEq, Repr

/-- ChatSwipe (common.ts): one complete or in-progress response. -/
structure ChatSwipe where
  content : String
  images : List ImageAsset
  thoughts : Option String
  deriving DecidableEq, Repr

/-- ChatEntry (common.ts): one conversational turn.  `new` is the in-progress
(pending) swipe, `index` the selected swipe index, `reasoning` the
reasoning-visible flag, `started` the response-started flag. -/
structure ChatEntry where
  user : Bool
  index : Int
  swipes : List ChatSwipe
  new : Option ChatSwipe
  edit : Bool
  reasoning : Bool
  started : Bool
  deriving DecidableEq, Repr

/-- imageAssetFromDataUrl (images.ts): the input must match the regular
expression ^data:([^;]+);base64,(.+)$ applied case-insensitively to the
trimmed string; otherwise the promise rejects, modelled as `none`.  The
base64-alphabet check done by atob is not modelled (its failure is caught by
the same catch as a failed match, so the behaviour of the callers is
unchanged). -/
def imageAssetFromDataUrl (dataUrl : String) : Option ImageAsset :=
  let lower := dataUrl.trim.toList.map Char.toLower
  if lower.take 5 = "data:".toList then
    let afterScheme := lower.drop 5
    let mime := afterScheme.takeWhile (fun c => c ≠ ';')
    let rest := afterScheme.dropWhile (fun c => c ≠ ';')
    if mime ≠ [] ∧ rest.take 8 = ";base64,".toList ∧ rest.drop 8 ≠ [] ∧
        ¬ (rest.drop 8).contains '\n' then
      some ⟨dataUrl⟩
    else none
  else none

/-- The normalized event vocabulary every provider adapter translates into
(the five content/status events plus the three lifecycle events). -/
inductive ApiEvent where
  | text (s : String)
  | image (s : String)
  | reasoning (s : String)
  | status (code : Int)
  | done
  | error (msg : String)
  | abort
  | close
  deriving DecidableEq, Repr

/-- ChatView.finishEntry (view.ts): if a pending swipe exists, push it onto
the committed swipes, select the new last index and clear the pending slot. -/
def finishEntry (entry : ChatEntry) : ChatEntry :=
  match entry.new with
  | some s =>
    let swipes := entry.swipes ++ [s]
    { entry with swipes := swipes, index := (swipes.length : Int) - 1, new := none }
  | none => entry

/-- The state visible to the handlers registered by ChatView.makeRequest for
one in-flight request: the target entry, whether removeEntry has removed it
from the transcript, the working flag, and the popup message shown by
showPopup. -/
structure RequestState where
  entry : ChatEntry
  removed : Bool
  working : Bool
  popup : Option String
  deriving DecidableEq, Repr

/-- ChatView.cleanEntry (view.ts): clear the pending slot; if no swipes were
ever committed remove the entry from the transcript, otherwise snap the
selected index to the last committed swipe. -/
def cleanEntry (st : RequestState) : RequestState :=
  let entry := { st.entry with new := none }
  if entry.swipes.length = 0 then
    { st with entry := entry, removed := true }
  else
    { st with entry := { entry with index := (entry.swipes.length : Int) - 1 } }

/-- The event handlers registered by ChatView.makeRequest (view.ts), folded
into one transition function.  Each branch is a direct transcription of the
corresponding `this.api.events.on(...)` handler:
text appends to the pending content (creating the pending swipe on first
token) and clears the reasoning-visible flag; image decodes the data URL and
appends the asset (decoding failure is caught and ignored; the auto-save side
effect touches no transcript state); reasoning sets the reasoning-visible
flag and appends to the pending thoughts; status 200 sets the started flag
and any other status only scrolls; done clears the reasoning flag and
commits via finishEntry; error only shows a popup (the discard code in the
handler is commented out in the source); abort commits via finishEntry;
close runs cleanEntry and clears the working flag. -/
def foldEvent (ev : ApiEvent) (st : RequestState) : RequestState :=
  match ev with
  | .text s =>
    if s.length = 0 then st
    else
      let base := st.entry.new.getD { content := "", images := [], thoughts := none }
      { st with entry := { st.entry with
          reasoning := false,
          new := some { base with content := base.content ++ s } } }
  | .image s =>
    if s.length = 0 then st
    else
      match imageAssetFromDataUrl s with
      | none => st
      | some asset =>
        let base := st.entry.new.getD { content := "", images := [], thoughts := none }
        { st with entry := { st.entry with
            new := some { base with images := base.images ++ [asset] } } }
  | .reasoning s =>
    if s.length = 0 then st
    else
      let base := st.entry.new.getD { content := "", images := [], thoughts := some "" }
      { st with entry := { st.entry with
          reasoning := true,
          new := some { base with thoughts := some (base.thoughts.getD "" ++ s) } } }
  | .status code =>
    if code ≠ 200 then st
    else { st with entry := { st.entry with started := true } }
  | .done =>
    { st with entry := finishEntry { st.entry with reasoning := false } }
  | .error msg =>
    { st with popup := some msg }
  | .abort =>
    { st with entry := finishEntry st.entry }
  | .close =>
    let st2 := cleanEntry st
    { st2 with working := false }

/-- A concrete partial response used by witnesses. -/
def samplePartialSwipe : ChatSwipe :=
  { content := "Partial", images := [], thoughts := none }

/-- A concrete request state with a non-empty pending swipe and no committed
swipes, used by witnesses. -/
def samplePendingState : RequestState :=
  { entry := { user := false, index := 0, swipes := [], new := some samplePartialSwipe,
               edit := false, reasoning := false, started := true },
    removed := false, working := true, popup := none }

/-- A concrete request state with one committed swipe and no pending swipe,
used by witnesses. -/
def sampleCommittedState : RequestState :=
  { entry := { user := false, index := 0,
               swipes := [{ content := "Done", images := [], thoughts := none }],
               new := none, edit := false, reasoning := false, started := true },
    removed := false, working := true, popup := none }

/-- **C1** (commit-on-abort): folding the abort event when the pending swipe
has accumulated non-empty content commits that pending swipe: it is pushed
onto the committed swipes, the selected index becomes the new last index,
and the pending slot is cleared — the partial response is kept. -/
theorem abort_commits_pending (st : RequestState) (s : ChatSwipe)
    (hnew : st.entry.new = some s) (hne : s.content ≠ "") :
    (foldEvent ApiEvent.abort st).entry.swipes = st.entry.swipes ++ [s] ∧
    (foldEvent ApiEvent.abort st).entry.index = (st.entry.swipes.length : Int) ∧
    (foldEvent ApiEvent.abort st).entry.new = none := by
  simp [foldEvent, finishEntry, hnew]

theorem abort_commits_pending_witness :
    (foldEvent ApiEvent.abort samplePendingState).entry.swipes =
      samplePendingState.entry.swipes ++ [samplePartialSwipe] ∧
    (foldEvent ApiEvent.abort samplePendingState).entry.index =
      (samplePendingState.entry.swipes.length : Int) ∧
    (foldEvent ApiEvent.abort samplePendingState).entry.new = none :=
  abort_commits_pending samplePendingState samplePartialSwipe rfl (by decide)

/-- **C2** (error preserves transcript state): folding an error event leaves
the entry — pending swipe, committed swipes and selected index — exactly as
it was, does not remove it, and does not change the working flag; its only
effect is surfacing the error message as the popup. -/
theorem error_leaves_transcript (st : RequestState) (msg : String) :
    (foldEvent (ApiEvent.error msg) st).entry = st.entry ∧
    (foldEvent (ApiEvent.error msg) st).removed = st.removed ∧
    (foldEvent (ApiEvent.error msg) st).working = st.working ∧
    (foldEvent (ApiEvent.error msg) st).popup = some msg := by
  simp [foldEvent]

/-- **C3** (discard-on-empty-close): folding the close event removes the
entry when the pending swipe is empty (absent or with empty content) and no
swipes were committed; when at least one committed swipe exists the entry is
kept, the pending slot is cleared, the committed swipes are unchanged and
the selected index is snapped to the last committed swipe. -/
theorem close_discards_empty_else_snaps (st : RequestState) :
    ((st.entry.new = none ∨ ∃ s, st.entry.new = some s ∧ s.content = "") →
      st.entry.swipes = [] → (foldEvent ApiEvent.close st).removed = true) ∧
    (st.entry.swipes ≠ [] →
      (foldEvent ApiEvent.close st).removed = st.removed ∧
      (foldEvent ApiEvent.close st).entry.new = none ∧
      (foldEvent ApiEvent.close st).entry.swipes = st.entry.swipes ∧
      (foldEvent ApiEvent.close st).entry.index = (st.entry.swipes.length : Int) - 1 ∧
      (foldEvent ApiEvent.close st).working = false) := by
  constructor
  · intro _ hsw
    simp [foldEvent, cleanEntry, hsw]
  · intro hsw
    have hlen : st.entry.swipes.length ≠ 0 := by
      simpa [List.length_eq_zero] using hsw
    simp [foldEvent, cleanEntry, hlen]

theorem close_discards_empty_else_snaps_witness :
    (foldEvent ApiEvent.close sampleCommittedState).removed =
        sampleCommittedState.removed ∧
      (foldEvent ApiEvent.close sampleCommittedState).entry.new = none ∧
      (foldEvent ApiEvent.close sampleCommittedState).entry.swipes =
        sampleCommittedState.entry.swipes ∧
      (foldEvent ApiEvent.close sampleCommittedState).entry.index =
        (sampleCommittedState.entry.swipes.length : Int) - 1 ∧
      (foldEvent ApiEvent.close sampleCommittedState).working = false :=
  (close_discards_empty_else_snaps sampleCommittedState).2 (by decide)

/-- **C10** (empty deltas are no-ops): folding a text or reasoning event
whose payload is the empty string changes nothing at all: no pending swipe
is created and the whole request state is unchanged. -/
theorem empty_delta_no_effect (st : RequestState) :
    foldEvent (ApiEvent.text "") st = st ∧
    foldEvent (ApiEvent.reasoning "") st = st := by
  constructor <;> simp [foldEvent]

/-- resolveSelectedSwipe (api.ts, inside OpenAICompatibleAPI.getMessages):
resolve which swipe of an entry represents it in the assembled context.  The
source mutates entry.index in the third branch, so the updated entry is
returned alongside the resolved swipe.  Number.isInteger always holds here
because the index is modelled as an integer. -/
def resolveSelectedSwipe (entry : ChatEntry) : Option ChatSwipe × ChatEntry :=
  if 0 ≤ entry.index ∧ entry.index < (entry.swipes.length : Int) then
    (entry.swipes[entry.index.toNat]?, entry)
  else if entry.index = (entry.swipes.length : Int) ∧ entry.new.isSome then
    (entry.new, entry)
  else if 0 < entry.swipes.length then
    (entry.swipes[entry.swipes.length - 1]?,
      { entry with index := (entry.swipes.length : Int) - 1 })
  else
    (entry.new, entry)

/-- The swipe-selection rule exactly as the claim states it: the swipe at
selectedIndex when valid, otherwise the pending swipe if one is present,
otherwise the last committed swipe, otherwise skip.  Used only to compare
against the rule implemented by the source. -/
def resolveSelectedSwipeClaim (entry : ChatEntry) : Option ChatSwipe :=
  if 0 ≤ entry.index ∧ entry.index < (entry.swipes.length : Int) then
    entry.swipes[entry.index.toNat]?
  else
    match entry.new with
    | some p => some p
    | none => entry.swipes.getLast?

/-- An entry with an invalid selected index (-1), one committed swipe and a
pending swipe: the source resolves it to the last committed swipe, the
claimed rule to the pending swipe. -/
def invalidIndexEntry : ChatEntry :=
  { user := false, index := -1,
    swipes := [{ content := "committed", images := [], thoughts := none }],
    new := some { content := "pending", images := [], thoughts := none },
    edit := false, reasoning := false, started := false }

/-- **C6 counterexample**: on an entry whose selected index is invalid (-1)
while both a committed swipe and a pending swipe exist, the source prefers
the last committed swipe, not the pending swipe the claimed preference order
would pick. -/
theorem resolve_swipe_claim_false :
    (resolveSelectedSwipe invalidIndexEntry).1 =
      some { content := "committed", images := [], thoughts := none } ∧
    resolveSelectedSwipeClaim invalidIndexEntry =
      some { content := "pending", images := [], thoughts := none } ∧
    (resolveSelectedSwipe invalidIndexEntry).1 ≠
      resolveSelectedSwipeClaim invalidIndexEntry := by
  refine ⟨?_, ?_, ?_⟩ <;> decide

/-- **C6 amended**: the resolved swipe is the swipe at selectedIndex when
0 <= selectedIndex < swipes.length; otherwise the pending swipe when
selectedIndex equals swipes.length and a pending swipe is present; otherwise
the last committed swipe when any committed swipes exist; otherwise the
pending swipe (so whenever no committed swipes exist and the first two
branches do not apply, the result is exactly the pending slot); and the
entry is skipped exactly when it has neither committed swipes nor a pending
swipe. -/
theorem resolve_swipe_characterization (entry : ChatEntry) :
    (0 ≤ entry.index → entry.index < (entry.swipes.length : Int) →
      (resolveSelectedSwipe entry).1 = entry.swipes[entry.index.toNat]?) ∧
    (entry.index = (entry.swipes.length : Int) → entry.new.isSome →
      (resolveSelectedSwipe entry).1 = entry.new) ∧
    (¬ (0 ≤ entry.index ∧ entry.index < (entry.swipes.length : Int)) →
      ¬ (entry.index = (entry.swipes.length : Int) ∧ entry.new.isSome) →
      entry.swipes ≠ [] →
      (resolveSelectedSwipe entry).1 = entry.swipes.getLast?) ∧
    (¬ (0 ≤ entry.index ∧ entry.index < (entry.swipes.length : Int)) →
      ¬ (entry.index = (entry.swipes.length : Int) ∧ entry.new.isSome) →
      entry.swipes = [] →
      (resolveSelectedSwipe entry).1 = entry.new) ∧
    ((resolveSelectedSwipe entry).1 = none ↔
      entry.swipes = [] ∧ entry.new = none) := by
  refine ⟨?_, ?_, ?_, ?_, ?_⟩
  · intro h0 hlt
    simp [resolveSelectedSwipe, h0, hlt]
  · intro heq hsome
    have hnlt : ¬ (0 ≤ entry.index ∧ entry.index < (entry.swipes.length : Int)) := by
      omega
    simp [resolveSelectedSwipe, hnlt, heq, hsome]
  · intro h1 h2 hne
    have hpos : 0 < entry.swipes.length := List.length_pos.mpr hne
    rw [List.getLast?_eq_getElem?]
    simp [resolveSelectedSwipe, h1, h2, hpos]
  · intro h1 h2 hsw
    have hno : ¬ (0 ≤ entry.index ∧ entry.index < (0 : Int)) := by omega
    simp [resolveSelectedSwipe, h1, h2, hsw, hno]
  · constructor
    · intro h
      by_cases h1 : 0 ≤ entry.index ∧ entry.index < (entry.swipes.length : Int)
      · exfalso
        rw [resolveSelectedSwipe, if_pos h1] at h
        have hlt : entry.index.toNat < entry.swipes.length := by omega
        simp [List.getElem?_eq_getElem hlt] at h
      · by_cases h2 : entry.index = (entry.swipes.length : Int) ∧ entry.new.isSome
        · exfalso
          rw [resolveSelectedSwipe, if_neg h1, if_pos h2] at h
          simp only at h
          rw [h] at h2
          simp at h2
        · by_cases h3 : 0 < entry.swipes.length
          · exfalso
            rw [resolveSelectedSwipe, if_neg h1, if_neg h2, if_pos h3] at h
            have hlt : entry.swipes.length - 1 < entry.swipes.length := by omega
            simp [List.getElem?_eq_getElem hlt] at h
          · rw [resolveSelectedSwipe, if_neg h1, if_neg h2, if_neg h3] at h
            simp only at h
            exact ⟨List.length_eq_zero.mp (by omega), h⟩
    · rintro ⟨hsw, hnew⟩
      simp [resolveSelectedSwipe, hsw, hnew]

/-- An entry with no committed swipes, a pending swipe and an index that is
neither valid nor equal to swipes.length: the final branch of the amended
rule resolves the pending swipe. -/
def emptySwipesEntry : ChatEntry :=
  { user := false, index := -5, swipes := [],
    new := some { content := "pending only", images := [], thoughts := none },
    edit := false, reasoning := false, started := false }

theorem resolve_swipe_characterization_witness :
    (resolveSelectedSwipe invalidIndexEntry).1 =
      invalidIndexEntry.swipes.getLast? ∧
    (resolveSelectedSwipe emptySwipesEntry).1 = emptySwipesEntry.new :=
  ⟨(resolve_swipe_characterization invalidIndexEntry).2.2.1
      (by decide) (by decide) (by decide),
    (resolve_swipe_characterization emptySwipesEntry).2.2.2.1
      (by decide) (by decide) rfl⟩

/-- ModelCapabilities (common.ts): the source declares both fields boolean,
but parseCapabilities can leave them undefined at runtime, so each field is
modelled as a JS boolean-or-undefined. -/
structure ModelCapabilities where
  reasoning : Option Bool
  images : Option Bool
  deriving DecidableEq, Repr

/-- One element of the model-listing payload data array as read by
parseCapabilities (api.ts): only the fields the function dereferences are
modelled.  `architecture_input_modalities` is the optional-chained path
value.architecture?.input_modalities, collapsed to present-or-undefined. -/
structure ModelItem where
  id : String
  supported_parameters : Option (List String)
  architecture_input_modalities : Option (List String)
  deriving DecidableEq, Repr

/-- parseCapabilities (api.ts): a null or non-object value yields literal
false flags; otherwise each flag is the optional-chained includes() result,
which is undefined (`none`) when the field is absent. -/
def parseCapabilities (value : Option ModelItem) : ModelCapabilities :=
  match value with
  | none => { reasoning := some false, images := some false }
  | some v =>
    { reasoning := v.supported_parameters.map (fun l => l.contains "reasoning"),
      images := v.architecture_input_modalities.map (fun l => l.contains "image") }

/-- The capability coercion applied by getAPI (api.ts) when a stored model is
resolved to the request-time ModelInfo: strict === true comparison on each
flag, so an undefined flag behaves as false. -/
def resolvedCapabilities (c : ModelCapabilities) : Bool × Bool :=
  (c.reasoning == some true, c.images == some true)

/-- A model-listing item carrying only an id, with the capability metadata
fields absent. -/
def bareModelItem : ModelItem :=
  { id := "some-model", supported_parameters := none,
    architecture_input_modalities := none }

/-- **C7 counterexample**: for a metadata object with no supported_parameters
and no architecture.input_modalities, parseCapabilities leaves both flags
undefined, not literal false as the claim states. -/
theorem capabilities_default_claim_false :
    (parseCapabilities (some bareModelItem)).reasoning ≠ some false ∧
    (parseCapabilities (some bareModelItem)).images ≠ some false := by
  decide

/-- **C7 amended**: when the capability metadata fields are absent both
inferred flags are undefined rather than literal false; since every consumer
resolves them with a strict === true check (getAPI), the model is resolved
with reasoning = false and images = false.  A null or non-object metadata
value does yield literal false flags. -/
theorem capabilities_default_undefined (item : ModelItem)
    (hsp : item.supported_parameters = none)
    (him : item.architecture_input_modalities = none) :
    parseCapabilities (some item) = { reasoning := none, images := none } ∧
    resolvedCapabilities (parseCapabilities (some item)) = (false, false) ∧
    parseCapabilities none = { reasoning := some false, images := some false } := by
  simp [parseCapabilities, resolvedCapabilities, hsp, him]

theorem capabilities_default_undefined_witness :
    parseCapabilities (some bareModelItem) = { reasoning := none, images := none } ∧
    resolvedCapabilities (parseCapabilities (some bareModelItem)) = (false, false) ∧
    parseCapabilities none = { reasoning := some false, images := some false } :=
  capabilities_default_undefined bareModelItem rfl rfl

/-- String.prototype.split("\n") over the character list: the segments
between newline characters, in order.  Always non-empty; the final segment
is the trailing text after the last newline (empty when the input ends in a
newline), which is exactly what CohereAPI.handleChunk pops and buffers. -/
def splitNl : List Char → List (List Char)
  | [] => [[]]
  | c :: cs =>
    if c = '\n' then [] :: splitNl cs
    else
      match splitNl cs with
      | [] => [[c]]
      | l :: ls => (c :: l) :: ls

theorem splitNl_ne_nil (s : List Char) : splitNl s ≠ [] := by
  cases s with
  | nil => simp [splitNl]
  | cons c cs =>
    by_cases hc : c = '\n'
    · simp [splitNl, hc]
    · cases hcs : splitNl cs with
      | nil => simp [splitNl, hc, hcs]
      | cons l ls => simp [splitNl, hc, hcs]

/-- Prepend a segment to the first line of a split result: the shape in
which the split of an appended string glues the two halves together. -/
def glueHead (x : List Char) : List (List Char) → List (List Char)
  | [] => [x]
  | y :: ys => (x ++ y) :: ys

theorem getLastD_append_right (l m : List (List Char)) (d : List Char)
    (h : m ≠ []) : (l ++ m).getLastD d = m.getLastD d := by
  induction l with
  | nil => rfl
  | cons a as ih =>
    cases as with
    | nil =>
      cases m with
      | nil => exact absurd rfl h
      | cons b bs => simp [List.getLastD_cons]
    | cons b bs =>
      simp only [List.cons_append, List.getLastD_cons] at *
      exact ih

theorem splitNl_cons_nl (cs : List Char) : splitNl ('\n' :: cs) = [] :: splitNl cs := by
  simp [splitNl]

theorem splitNl_cons_not_nl (c : Char) (cs : List Char) (hc : c ≠ '\n')
    (y : List Char) (ys : List (List Char)) (hcs : splitNl cs = y :: ys) :
    splitNl (c :: cs) = (c :: y) :: ys := by
  simp [splitNl, hc, hcs]

theorem splitNl_append (a b : List Char) :
    splitNl (a ++ b) =
      (splitNl a).dropLast ++ glueHead ((splitNl a).getLastD []) (splitNl b) := by
  induction a with
  | nil =>
    cases hb : splitNl b with
    | nil => exact absurd hb (splitNl_ne_nil b)
    | cons y ys => simp [splitNl, glueHead, hb]
  | cons c cs ih =>
    by_cases hc : c = '\n'
    · subst hc
      cases hcs : splitNl cs with
      | nil => exact absurd hcs (splitNl_ne_nil cs)
      | cons y ys =>
        rw [List.cons_append, splitNl_cons_nl, splitNl_cons_nl, ih, hcs]
        simp only [List.dropLast_cons₂, List.getLastD_cons, List.cons_append]
    · cases hcs : splitNl cs with
      | nil => exact absurd hcs (splitNl_ne_nil cs)
      | cons y ys =>
        cases hb : splitNl b with
        | nil => exact absurd hb (splitNl_ne_nil b)
        | cons z zs =>
          cases ys with
          | nil =>
            have hsplit : splitNl (cs ++ b) = (y ++ z) :: zs := by
              rw [ih, hcs, hb]
              simp [glueHead, List.getLastD]
            rw [List.cons_append, splitNl_cons_not_nl c (cs ++ b) hc _ _ hsplit,
              splitNl_cons_not_nl c cs hc _ _ hcs]
            simp [glueHead, List.getLastD]
          | cons w ws =>
            have hsplit : splitNl (cs ++ b) =
                y :: ((w :: ws).dropLast ++ (ws.getLastD w ++ z) :: zs) := by
              rw [ih, hcs, hb]
              simp only [List.dropLast_cons₂, List.getLastD_cons, glueHead,
                List.cons_append]
            rw [List.cons_append, splitNl_cons_not_nl c (cs ++ b) hc _ _ hsplit,
              splitNl_cons_not_nl c cs hc _ _ hcs]
            simp only [List.dropLast_cons₂, List.getLastD_cons, glueHead,
              List.cons_append]

theorem splitNl_no_nl (s : List Char) (h : '\n' ∉ s) : splitNl s = [s] := by
  induction s with
  | nil => simp [splitNl]
  | cons c cs ih =>
    have hc : c ≠ '\n' := fun e => h (by simp [e])
    have hcs : '\n' ∉ cs := fun m => h (List.mem_cons_of_mem _ m)
    simp [splitNl, hc, ih hcs]

theorem splitNl_last_no_nl (s : List Char) : '\n' ∉ (splitNl s).getLastD [] := by
  induction s with
  | nil => simp [splitNl]
  | cons c cs ih =>
    by_cases hc : c = '\n'
    · subst hc
      cases hcs : splitNl cs with
      | nil => exact absurd hcs (splitNl_ne_nil cs)
      | cons y ys =>
        rw [hcs] at ih
        simpa [splitNl, hcs, List.getLastD_cons] using ih
    · cases hcs : splitNl cs with
      | nil => exact absurd hcs (splitNl_ne_nil cs)
      | cons y ys =>
        rw [hcs] at ih
        cases ys with
        | nil =>
          simp only [splitNl, if_neg hc, hcs]
          simp only [List.getLastD_cons] at ih ⊢
          simp only [List.getLastD]
          intro hmem
          rcases List.mem_cons.mp hmem with h1 | h2
          · exact hc h1.symm
          · exact ih (by simpa [List.getLastD] using h2)
        | cons w ws =>
          simp only [splitNl, if_neg hc, hcs]
          simpa [List.getLastD_cons] using ih

/-- The synthetic SSE frame CohereAPI.handleChunk feeds to the parser for
each complete line. -/
def cohereFrame (line : List Char) : List Char :=
  "event: cohere\ndata:".toList ++ line ++ "\n\n".toList

/-- CohereAPI.handleChunk (api.ts): prepend the buffered partial line, split
on newlines, pop the trailing segment back into the buffer when non-empty,
and feed every complete line to the parser framed as a cohere SSE event.
Returns the new buffer and the frames fed, in order. -/
def cohereHandleChunk (currentChunk chunk : List Char) :
    List Char × List (List Char) :=
  let combined := currentChunk ++ chunk
  let parts := splitNl combined
  let lastChunk := parts.getLastD []
  ((if lastChunk.length ≠ 0 then lastChunk else []),
    parts.dropLast.map cohereFrame)

/-- Feeding a whole sequence of chunks through CohereAPI.handleChunk,
threading the buffer, collecting every frame fed to the parser. -/
def cohereFeedAll (currentChunk : List Char) :
    List (List Char) → List Char × List (List Char)
  | [] => (currentChunk, [])
  | chunk :: rest =>
    let r1 := cohereHandleChunk currentChunk chunk
    let r2 := cohereFeedAll r1.1 rest
    (r2.1, r1.2 ++ r2.2)

theorem cohereFeedAll_spec (chunks : List (List Char)) :
    ∀ cur : List Char, '\n' ∉ cur →
      cohereFeedAll cur chunks =
        ((splitNl (cur ++ chunks.flatten)).getLastD [],
          ((splitNl (cur ++ chunks.flatten)).dropLast).map cohereFrame) := by
  induction chunks with
  | nil =>
    intro cur h
    simp [cohereFeedAll, splitNl_no_nl cur h, List.getLastD]
  | cons ch rest ih =>
    intro cur h
    have hbuf := splitNl_last_no_nl (cur ++ ch)
    have hne := splitNl_ne_nil (((splitNl (cur ++ ch)).getLastD []) ++ rest.flatten)
    have e1 : splitNl (((splitNl (cur ++ ch)).getLastD []) ++ rest.flatten) =
        glueHead ((splitNl (cur ++ ch)).getLastD []) (splitNl rest.flatten) := by
      rw [splitNl_append, splitNl_no_nl _ hbuf]
      simp [List.getLastD]
    have key : splitNl ((cur ++ ch) ++ rest.flatten) =
        (splitNl (cur ++ ch)).dropLast ++
          splitNl (((splitNl (cur ++ ch)).getLastD []) ++ rest.flatten) := by
      rw [splitNl_append, e1]
    have hif : ∀ L : List Char, (if L.length ≠ 0 then L else []) = L := by
      intro L
      cases L <;> simp
    have h1 : cohereHandleChunk cur ch =
        ((splitNl (cur ++ ch)).getLastD [],
          (splitNl (cur ++ ch)).dropLast.map cohereFrame) := by
      simp only [cohereHandleChunk, hif]
    have hjoin : cur ++ (ch :: rest).flatten = (cur ++ ch) ++ rest.flatten := by
      simp [List.append_assoc]
    simp only [cohereFeedAll, h1, ih _ hbuf, hjoin, key]
    rw [getLastD_append_right _ _ _ hne, List.dropLast_append_of_ne_nil _ hne,
      List.map_append]

/-- **C9**: feeding any sequence of chunks through CohereAPI.handleChunk
feeds the parser exactly the complete newline-terminated lines of the
concatenated stream, in order, each framed as a synthetic cohere SSE event,
and leaves the trailing incomplete line in the buffer — chunk-by-chunk
processing is equivalent to splitting the whole stream on newlines, wherever
the chunk boundaries fall. -/
theorem cohere_chunking_splits_stream (chunks : List (List Char)) :
    cohereFeedAll [] chunks =
      ((splitNl chunks.flatten).getLastD [],
        ((splitNl chunks.flatten).dropLast).map cohereFrame) := by
  simpa using cohereFeedAll_spec chunks [] (by simp)


/-- formatSentence (api.ts): capitalise the first character and append a
final period unless one is already there (an empty string becomes "."). -/
def formatSentence (text : String) : String :=
  let t := match text.toList with
    | [] => ""
    | c :: cs => String.mk (Char.toUpper c :: cs)
  match t.toList.getLast? with
  | some c => if c ≠ '.' then t ++ "." else t
  | none => t ++ "."

/-- The HTTPStatus table (common.ts); a status missing from the table renders
as the string "undefined" in the template literal. -/
def httpStatusName : Int → String
  | 0 => "Unknown"
  | 200 => "OK"
  | 201 => "Created"
  | 202 => "Accepted"
  | 203 => "Non-Authoritative Information"
  | 204 => "No Content"
  | 205 => "Reset Content"
  | 206 => "Partial Content"
  | 300 => "Multiple Choices"
  | 301 => "Moved Permanently"
  | 302 => "Found"
  | 303 => "See Other"
  | 304 => "Not Modified"
  | 305 => "Use Proxy"
  | 306 => "Unused"
  | 307 => "Temporary Redirect"
  | 400 => "Bad Request"
  | 401 => "Unauthorized"
  | 402 => "Payment Required"
  | 403 => "Forbidden"
  | 404 => "Not Found"
  | 405 => "Method Not Allowed"
  | 406 => "Not Acceptable"
  | 407 => "Proxy Authentication Required"
  | 408 => "Request Timeout"
  | 409 => "Conflict"
  | 410 => "Gone"
  | 411 => "Length Required"
  | 412 => "Precondition Required"
  | 413 => "Request Entry Too Large"
  | 414 => "Request-URI Too Long"
  | 415 => "Unsupported Media Type"
  | 416 => "Requested Range Not Satisfiable"
  | 417 => "Expectation Failed"
  | 418 => "I\x27m a teapot"
  | 429 => "Too Many Requests"
  | 500 => "Internal Server Error"
  | 501 => "Not Implemented"
  | 502 => "Bad Gateway"
  | 503 => "Service Unavailable"
  | 504 => "Gateway Timeout"
  | 505 => "HTTP Version Not Supported"
  | _ => "undefined"

def ERROR_SUFFIX : String := "Press to dismiss."

/-- One element of a streamed delta content/reasoning array as read by
emitContentDelta (api.ts): a part whose type tag is "text" (with a possibly
absent text field), one whose tag is "image_url" (with the optional-chained
image_url.url value), or anything else. -/
inductive DeltaPart where
  | textPart (text : Option String)
  | imageUrlPart (url : Option String)
  | otherPart
  deriving DecidableEq, Repr

/-- A delta field that may be a string, an array of parts, or absent/other. -/
inductive DeltaField where
  | str (s : String)
  | arr (parts : List DeltaPart)
  | absent
  deriving DecidableEq, Repr

/-- The fields of a chat.completion.chunk delta that emitContentDelta
(api.ts) dereferences.  `images` is the optional images array with each
element collapsed to its optional-chained image_url.url; `image_url` is the
optional-chained delta.image_url.url used in the non-array fallback. -/
structure Delta where
  content : DeltaField
  reasoning : DeltaField
  images : Option (List (Option String))
  image_url : Option String
  deriving DecidableEq, Repr

/-- The pushText closure in emitContentDelta: emit a text event only for a
present, non-empty string. -/
def pushText : Option String → List ApiEvent
  | some s => if s.length > 0 then [ApiEvent.text s] else []
  | none => []

/-- The pushImage closure in emitContentDelta. -/
def pushImage : Option String → List ApiEvent
  | some s => if s.length > 0 then [ApiEvent.image s] else []
  | none => []

/-- The pushReasoning closure in emitContentDelta. -/
def pushReasoning : Option String → List ApiEvent
  | some s => if s.length > 0 then [ApiEvent.reasoning s] else []
  | none => []

/-- emitContentDelta (api.ts): the events emitted for one parsed delta, in
order — the content field (string or typed parts), then the reasoning field
(string or text parts), then the images array or the single image_url
fallback. -/
def emitContentDelta (delta : Delta) : List ApiEvent :=
  (match delta.content with
   | .str s => pushText (some s)
   | .arr parts =>
     (parts.map (fun p =>
       match p with
       | .textPart t => pushText t
       | .imageUrlPart u => pushImage u
       | .otherPart => [])).flatten
   | .absent => []) ++
  (match delta.reasoning with
   | .str s => pushReasoning (some s)
   | .arr parts =>
     (parts.map (fun p =>
       match p with
       | .textPart t => pushReasoning t
       | _ => [])).flatten
   | .absent => []) ++
  (match delta.images with
   | some images => (images.map pushImage).flatten
   | none => pushImage delta.image_url)

/-- One event delivered by the SSE parser to the callback in send (api.ts):
the [DONE] marker, data that fails JSON.parse, a parsed object whose object
tag is not chat.completion.chunk, or a chunk with its optional
choices[0].delta. -/
inductive SseItem where
  | doneMarker
  | unparsable
  | wrongObject
  | chunk (delta : Option Delta)
  deriving Repr

/-- The events the parser callback in send emits for one SSE item: only a
chunk with a delta produces anything, via emitContentDelta. -/
def sseItemEvents : SseItem → List ApiEvent
  | .chunk (some d) => emitContentDelta d
  | _ => []

/-- The error event payload for a non-200 response (the response close
handler in send). -/
def httpErrorMessage (status : Int) (errMessage : Option String) : String :=
  let title := "HTTP " ++ toString status ++ " " ++ httpStatusName status
  let details := match errMessage with
    | some m => formatSentence m ++ "\n" ++ ERROR_SUFFIX
    | none => ERROR_SUFFIX
  title ++ "\n" ++ details

/-- The error event payload for a request error (the request error handler
in send). -/
def requestErrorMessage (name : String) (msg : String) : String :=
  "Request Failed\n" ++ name ++ ": " ++ formatSentence msg ++ "\n" ++ ERROR_SUFFIX

/-- The error event payload for the inactivity timeout. -/
def timeoutErrorMessage : String :=
  "Request Failed\nTimeout\n" ++ ERROR_SUFFIX

def isContentEvent : ApiEvent → Bool
  | .text _ => true
  | .image _ => true
  | .reasoning _ => true
  | _ => false

def isTerminalEvent : ApiEvent → Bool
  | .done => true
  | .error _ => true
  | .abort => true
  | _ => false

def isCloseEvent : ApiEvent → Bool
  | .close => true
  | _ => false

theorem pushText_content (t : Option String) (e : ApiEvent)
    (he : e ∈ pushText t) : isContentEvent e = true := by
  cases t with
  | none => simp [pushText] at he
  | some s =>
    by_cases hl : s.length > 0
    · simp [pushText, hl] at he
      subst he
      rfl
    · simp [pushText, hl] at he

theorem pushImage_content (t : Option String) (e : ApiEvent)
    (he : e ∈ pushImage t) : isContentEvent e = true := by
  cases t with
  | none => simp [pushImage] at he
  | some s =>
    by_cases hl : s.length > 0
    · simp [pushImage, hl] at he
      subst he
      rfl
    · simp [pushImage, hl] at he

theorem pushReasoning_content (t : Option String) (e : ApiEvent)
    (he : e ∈ pushReasoning t) : isContentEvent e = true := by
  cases t with
  | none => simp [pushReasoning] at he
  | some s =>
    by_cases hl : s.length > 0
    · simp [pushReasoning, hl] at he
      subst he
      rfl
    · simp [pushReasoning, hl] at he

theorem emitContentDelta_content (d : Delta) (e : ApiEvent)
    (he : e ∈ emitContentDelta d) : isContentEvent e = true := by
  unfold emitContentDelta at he
  rcases List.mem_append.mp he with h12 | h3
  · rcases List.mem_append.mp h12 with h1 | h2
    · revert h1
      cases d.content with
      | str s => exact fun h => pushText_content (some s) e h
      | arr parts =>
        intro h1
        rw [List.mem_flatten] at h1
        obtain ⟨l, hl, hel⟩ := h1
        rw [List.mem_map] at hl
        obtain ⟨p, hp, rfl⟩ := hl
        cases p with
        | textPart t => exact pushText_content t e hel
        | imageUrlPart u => exact pushImage_content u e hel
        | otherPart => simp at hel
      | absent => intro h; simp at h
    · revert h2
      cases d.reasoning with
      | str s => exact fun h => pushReasoning_content (some s) e h
      | arr parts =>
        intro h2
        rw [List.mem_flatten] at h2
        obtain ⟨l, hl, hel⟩ := h2
        rw [List.mem_map] at hl
        obtain ⟨p, hp, rfl⟩ := hl
        cases p with
        | textPart t => exact pushReasoning_content t e hel
        | imageUrlPart u => simp at hel
        | otherPart => simp at hel
      | absent => intro h; simp at h
  · revert h3
    cases d.images with
    | some images =>
      intro h3
      rw [List.mem_flatten] at h3
      obtain ⟨l, hl, hel⟩ := h3
      rw [List.mem_map] at hl
      obtain ⟨u, hu, rfl⟩ := hl
      exact pushImage_content u e hel
    | none => exact fun h => pushImage_content d.image_url e h

theorem streamEvents_content (items : List SseItem) (e : ApiEvent)
    (he : e ∈ (items.map sseItemEvents).flatten) : isContentEvent e = true := by
  rw [List.mem_flatten] at he
  obtain ⟨l, hl, hel⟩ := he
  rw [List.mem_map] at hl
  obtain ⟨item, hitem, rfl⟩ := hl
  cases item with
  | chunk delta =>
    cases delta with
    | some d => exact emitContentDelta_content d e hel
    | none => simp [sseItemEvents] at hel
  | doneMarker => simp [sseItemEvents] at hel
  | unparsable => simp [sseItemEvents] at hel
  | wrongObject => simp [sseItemEvents] at hel

theorem content_not_terminal (e : ApiEvent) (h : isContentEvent e = true) :
    isTerminalEvent e = false ∧ isCloseEvent e = false := by
  cases e <;> simp_all [isContentEvent, isTerminalEvent, isCloseEvent]

/-- A one-token delta used by the C4 witness delivery. -/
def sampleDelta : Delta :=
  { content := DeltaField.str "Hi", reasoning := DeltaField.absent,
    images := none, image_url := none }


/-- The outcome of reading one document in getMessages (api.ts): either the
try block threw (vault read or image decoding failure), or the bytes were
read, in which case the UTF-8 decode with fatal:true either yields text or
throws.  The byte content itself is abstracted to this outcome because the
vault is an external collaborator. -/
inductive DocRead where
  | err
  | ok (decoded : Option String)
  deriving DecidableEq, Repr

/-- ChatDocument (common.ts) together with the read outcome the vault would
deliver for it and the data URL the asset codec would produce for it when it
is an image (both external to the assembler). -/
structure ChatDocument where
  path : String
  pin : Bool
  mute : Bool
  read : DocRead
  dataUrl : String
  deriving DecidableEq, Repr

/-- ChatHistory (common.ts): the transcript entries and attached documents. -/
structure ChatHistory where
  entries : List ChatEntry
  documents : List ChatDocument
  deriving Repr

/-- guessMimeFromPath (images.ts): map the lower-cased final extension
through the fixed table, falling back otherwise (also when the extension is
empty). -/
def guessMimeFromPath (filePath : String) (fallback : String) : String :=
  let ext := ((filePath.splitOn ".").getLastD "").toLower
  match ext with
  | "png" => "image/png"
  | "jpg" => "image/jpeg"
  | "jpeg" => "image/jpeg"
  | "webp" => "image/webp"
  | "gif" => "image/gif"
  | "bmp" => "image/bmp"
  | "avif" => "image/avif"
  | "svg" => "image/svg+xml"
  | _ => fallback

/-- One part of a multi-modal message content array (api.ts APIContent). -/
inductive MsgPart where
  | textPart (text : String)
  | imagePart (url : String)
  deriving DecidableEq, Repr

/-- APIContent (api.ts): a plain string or an array of typed parts. -/
inductive APIContent where
  | str (s : String)
  | parts (l : List MsgPart)
  deriving DecidableEq, Repr

/-- One role-tagged message of the provider-agnostic intermediate form. -/
structure Message where
  role : String
  content : APIContent
  deriving DecidableEq, Repr

/-- imageAssetToDataUrl (images.ts), under the codec abstraction that an
asset is represented by its data URL. -/
def imageAssetToDataUrl (img : ImageAsset) : String :=
  img.url

/-- The accumulator of the document loop in getMessages (api.ts): the
wrapped document blocks, the data URLs of image documents, and the
omitted-image counter. -/
structure DocAcc where
  documents : List String
  documentImages : List String
  omitted : Nat
  deriving DecidableEq, Repr

/-- The BEGIN DOCUMENT framing applied to each document content. -/
def docBlock (path content : String) : String :=
  "BEGIN DOCUMENT (" ++ path ++ ")\n" ++ content ++ "\nEND DOCUMENT"

/-- One iteration of the document loop in getMessages (api.ts): muted
documents are skipped; a read failure becomes an inline error marker; an
image document is inlined as a placeholder plus a collected data URL when
images are allowed and otherwise counted as omitted; other documents are the
decoded text or a binary marker. -/
def processDocument (includeImages : Bool) (acc : DocAcc) (d : ChatDocument) : DocAcc :=
  if d.mute then acc
  else
    match d.read with
    | .err =>
      { acc with documents := acc.documents ++ [docBlock d.path "ERROR READING DOCUMENT"] }
    | .ok decoded =>
      let mime := guessMimeFromPath d.path "application/octet-stream"
      if mime.startsWith "image/" then
        if includeImages then
          { acc with
              documents := acc.documents ++
                [docBlock d.path
                  ("IMAGE " ++ toString acc.documentImages.length ++ " (" ++ mime ++ ")")],
              documentImages := acc.documentImages ++ [d.dataUrl] }
        else
          { acc with
              documents := acc.documents ++ [docBlock d.path "OMITTED"],
              omitted := acc.omitted + 1 }
      else
        match decoded with
        | some t => { acc with documents := acc.documents ++ [docBlock d.path t] }
        | none =>
          { acc with documents := acc.documents ++ [docBlock d.path "UNKNOWN BINARY FORMAT"] }

/-- The whole document loop of getMessages. -/
def assembleDocs (includeImages : Bool) (docs : List ChatDocument) : DocAcc :=
  docs.foldl (processDocument includeImages)
    { documents := [], documentImages := [], omitted := 0 }

/-- The message built for one walked entry in getMessages (api.ts): none
when no swipe resolves; otherwise the resolved swipe content, as a plain
string or as a text part followed by image parts when images are allowed. -/
def entryMessage (includeImages : Bool) (e : ChatEntry) : Option Message :=
  match (resolveSelectedSwipe e).1 with
  | none => none
  | some swipe =>
    let content : APIContent :=
      if includeImages then
        APIContent.parts (MsgPart.textPart swipe.content ::
          swipe.images.map (fun img => MsgPart.imagePart (imageAssetToDataUrl img)))
      else
        APIContent.str swipe.content
    some { role := if e.user then "user" else "assistant", content := content }

/-- The entry walk of getMessages (api.ts): entries strictly before the
target (the source breaks on reference equality with the target, modelled by
its position) each contribute at most one message; when none do, a single
empty user message is synthesized. -/
def chatMessages (entries : List ChatEntry) (targetIdx : Nat) (includeImages : Bool) :
    List Message :=
  let ms := (entries.take targetIdx).filterMap (entryMessage includeImages)
  if ms.isEmpty then [{ role := "user", content := APIContent.str "" }] else ms

/-- The string-to-parts conversion getMessages applies to the first message
before framing. -/
def ensureFirstParts : List Message → List Message
  | [] => []
  | m :: rest =>
    match m.content with
    | .str s => { m with content := APIContent.parts [MsgPart.textPart s] } :: rest
    | .parts _ => m :: rest

/-- The splice of collected document image parts into position 1 of the
first message content (getMessages, api.ts). -/
def spliceDocumentImages (urls : List String) : List Message → List Message
  | [] => []
  | m :: rest =>
    match m.content with
    | .parts l =>
      { m with content :=
          APIContent.parts (l.take 1 ++ urls.map MsgPart.imagePart ++ l.drop 1) } :: rest
    | .str _ => m :: rest

/-- Prefixing the document preamble onto the first text part of the first
message (getMessages, api.ts). -/
def prependFirstText (pre : String) : List Message → List Message
  | [] => []
  | m :: rest =>
    match m.content with
    | .parts (MsgPart.textPart t :: ps) =>
      { m with content := APIContent.parts (MsgPart.textPart (pre ++ t) :: ps) } :: rest
    | _ => m :: rest

/-- The omitted-images warning line of the preamble. -/
def omittedWarning (n : Nat) : String :=
  "WARNING: IMAGE DATA OMITTED (" ++ toString n ++
    " IMAGES). TELL THE USER TO CHECK THEIR SETTINGS.\n"

/-- The BEGIN DOCUMENTS preamble built by getMessages (api.ts) from the
document-loop accumulator: the joined document blocks (or the NO SHARED
DOCUMENTS marker), the omitted-image warning line when the final count is
positive (document image data URLs are added to the count when images are
not allowed), and the closing END DOCUMENTS/BEGIN CHAT framing. -/
def docPreamble (acc : DocAcc) (includeImages : Bool) : String :=
  let pre1 := "BEGIN DOCUMENTS\n" ++
    (if 0 < acc.documents.length then String.intercalate "\n" acc.documents ++ "\n"
     else "NO SHARED DOCUMENTS\n")
  let omitted := if 0 < acc.documentImages.length ∧ includeImages = false then
      acc.omitted + acc.documentImages.length
    else acc.omitted
  let pre2 := if 0 < omitted then pre1 ++ omittedWarning omitted else pre1
  pre2 ++ "END DOCUMENTS\nBEGIN CHAT\n"

/-- getMessages (api.ts): assemble the provider-agnostic message list — walk
the documents, walk the entries before the target, convert the first content
to parts, splice collected document images into the first message when
images are allowed, and prefix the document preamble onto the first text
part. -/
def getMessages (history : ChatHistory) (targetIdx : Nat) (includeImages : Bool) :
    List Message :=
  let acc := assembleDocs includeImages history.documents
  let messages := ensureFirstParts (chatMessages history.entries targetIdx includeImages)
  let messages2 := if 0 < acc.documentImages.length ∧ includeImages = true then
      spliceDocumentImages acc.documentImages messages
    else messages
  prependFirstText (docPreamble acc includeImages) messages2

/-- The text of the leading text part (or plain string content) of the first
message. -/
def msgFirstText : List Message → Option String
  | [] => none
  | m :: _ =>
    match m.content with
    | .str s => some s
    | .parts (MsgPart.textPart t :: _) => some t
    | .parts _ => none

theorem processDocument_block (inc : Bool) (acc : DocAcc) (d : ChatDocument)
    (hm : d.mute = false) :
    ∃ c, (processDocument inc acc d).documents = acc.documents ++ [docBlock d.path c] := by
  unfold processDocument
  rw [hm]
  simp only [Bool.false_eq_true, if_false]
  cases d.read with
  | err => exact ⟨"ERROR READING DOCUMENT", rfl⟩
  | ok decoded =>
    by_cases himg : (guessMimeFromPath d.path "application/octet-stream").startsWith "image/"
    · cases inc with
      | true =>
        exact ⟨"IMAGE " ++ toString acc.documentImages.length ++ " (" ++
          guessMimeFromPath d.path "application/octet-stream" ++ ")", by simp [himg]⟩
      | false => exact ⟨"OMITTED", by simp [himg]⟩
    · cases decoded with
      | some t => exact ⟨t, by simp [himg]⟩
      | none => exact ⟨"UNKNOWN BINARY FORMAT", by simp [himg]⟩

theorem foldDocs_shape (inc : Bool) (docs : List ChatDocument) :
    ∀ acc : DocAcc, ∃ contents : List String,
      contents.length = (docs.filter (fun d => !d.mute)).length ∧
      (docs.foldl (processDocument inc) acc).documents =
        acc.documents ++
          List.zipWith (fun d c => docBlock d.path c)
            (docs.filter (fun d => !d.mute)) contents := by
  induction docs with
  | nil =>
    intro acc
    exact ⟨[], by simp, by simp⟩
  | cons d ds ih =>
    intro acc
    by_cases hm : d.mute = true
    · have hskip : processDocument inc acc d = acc := by simp [processDocument, hm]
      obtain ⟨contents, hlen, hdocs⟩ := ih acc
      refine ⟨contents, ?_, ?_⟩
      · simp [List.filter_cons, hm, hlen]
      · simp [List.foldl_cons, hskip, List.filter_cons, hm, hdocs]
    · have hm' : d.mute = false := by simpa using hm
      obtain ⟨c, hc⟩ := processDocument_block inc acc d hm'
      obtain ⟨contents, hlen, hdocs⟩ := ih (processDocument inc acc d)
      refine ⟨c :: contents, ?_, ?_⟩
      · simp [List.filter_cons, hm', hlen]
      · rw [List.foldl_cons, hdocs, hc]
        simp [List.filter_cons, hm', List.append_assoc]

theorem entryMessage_shape (inc : Bool) (e : ChatEntry) (m : Message)
    (h : entryMessage inc e = some m) :
    (∃ s, m.content = APIContent.str s) ∨
      ∃ t ps, m.content = APIContent.parts (MsgPart.textPart t :: ps) := by
  unfold entryMessage at h
  cases hr : (resolveSelectedSwipe e).1 with
  | none =>
    rw [hr] at h
    exact absurd h (by simp)
  | some sw =>
    rw [hr] at h
    simp only [Option.some.injEq] at h
    subst h
    cases inc with
    | false => exact Or.inl ⟨sw.content, by simp⟩
    | true =>
      exact Or.inr ⟨sw.content,
        sw.images.map (fun img => MsgPart.imagePart (imageAssetToDataUrl img)), by simp⟩

theorem chatMessages_first (entries : List ChatEntry) (targetIdx : Nat) (inc : Bool) :
    ∃ role t ps rest,
      ensureFirstParts (chatMessages entries targetIdx inc) =
        { role := role, content := APIContent.parts (MsgPart.textPart t :: ps) } :: rest ∧
      msgFirstText (chatMessages entries targetIdx inc) = some t := by
  by_cases hempty : ((entries.take targetIdx).filterMap (entryMessage inc)).isEmpty
  · refine ⟨"user", "", [], [], ?_, ?_⟩
    · simp [chatMessages, hempty, ensureFirstParts]
    · simp [chatMessages, hempty, msgFirstText]
  · cases hcase : (entries.take targetIdx).filterMap (entryMessage inc) with
    | nil =>
      rw [hcase] at hempty
      simp at hempty
    | cons m rest =>
      have hchat : chatMessages entries targetIdx inc = m :: rest := by
        simp [chatMessages, hempty, hcase]
      have hmem : m ∈ (entries.take targetIdx).filterMap (entryMessage inc) := by
        rw [hcase]
        exact List.mem_cons_self m rest
      obtain ⟨e, _, hEM⟩ := List.mem_filterMap.mp hmem
      rcases entryMessage_shape inc e m hEM with ⟨s, hs⟩ | ⟨t, ps, hp⟩
      · refine ⟨m.role, s, [], rest, ?_, ?_⟩
        · rw [hchat]
          simp [ensureFirstParts, hs]
        · rw [hchat]
          simp [msgFirstText, hs]
      · refine ⟨m.role, t, ps, rest, ?_, ?_⟩
        · rw [hchat]
          cases m with
          | mk role content =>
            simp only at hp
            subst hp
            simp [ensureFirstParts]
        · rw [hchat]
          simp [msgFirstText, hp]

theorem prependFirstText_first (pre role t : String) (ps : List MsgPart)
    (rest : List Message) :
    msgFirstText (prependFirstText pre
      ({ role := role, content := APIContent.parts (MsgPart.textPart t :: ps) } :: rest)) =
      some (pre ++ t) := by
  simp [prependFirstText, msgFirstText]

theorem spliceDocumentImages_first (urls : List String) (role t : String)
    (ps : List MsgPart) (rest : List Message) :
    spliceDocumentImages urls
        ({ role := role, content := APIContent.parts (MsgPart.textPart t :: ps) } :: rest) =
      { role := role, content := APIContent.parts
          (MsgPart.textPart t :: (urls.map MsgPart.imagePart ++ ps)) } :: rest := by
  simp [spliceDocumentImages]

theorem getMessages_firstText (history : ChatHistory) (targetIdx : Nat)
    (includeImages : Bool) :
    ∃ t, msgFirstText (chatMessages history.entries targetIdx includeImages) = some t ∧
      msgFirstText (getMessages history targetIdx includeImages) =
        some (docPreamble (assembleDocs includeImages history.documents) includeImages ++ t) := by
  obtain ⟨role, t, ps, rest, hshape, hfirst⟩ :=
    chatMessages_first history.entries targetIdx includeImages
  refine ⟨t, hfirst, ?_⟩
  simp only [getMessages]
  by_cases hA : 0 < (assembleDocs includeImages history.documents).documentImages.length ∧
      includeImages = true
  · rw [if_pos hA, hshape, spliceDocumentImages_first, prependFirstText_first]
  · rw [if_neg hA, hshape, prependFirstText_first]

/-- **C5** (context framing): the first message of the assembled context
begins with a preamble that opens with BEGIN DOCUMENTS, contains the literal
NO SHARED DOCUMENTS marker when there are zero non-muted documents and
otherwise exactly one BEGIN DOCUMENT (path)/END DOCUMENT pair per non-muted
document in document-list order (muted documents contribute none), followed
by an omitted-image warning line when applicable, then the END
DOCUMENTS/BEGIN CHAT framing, followed by the original first-message text. -/
theorem context_framing (history : ChatHistory) (targetIdx : Nat) (includeImages : Bool) :
    ∃ (contents : List String) (w t : String),
      contents.length = (history.documents.filter (fun d => !d.mute)).length ∧
      (w = "" ∨ ∃ n, 0 < n ∧ w = omittedWarning n) ∧
      msgFirstText (chatMessages history.entries targetIdx includeImages) = some t ∧
      msgFirstText (getMessages history targetIdx includeImages) =
        some ("BEGIN DOCUMENTS\n" ++
          (if history.documents.filter (fun d => !d.mute) = [] then "NO SHARED DOCUMENTS\n"
           else String.intercalate "\n"
              (List.zipWith
                (fun d c => "BEGIN DOCUMENT (" ++ d.path ++ ")\n" ++ c ++ "\nEND DOCUMENT")
                (history.documents.filter (fun d => !d.mute)) contents) ++ "\n") ++
          w ++ ("END DOCUMENTS\nBEGIN CHAT\n" ++ t)) := by
  obtain ⟨contents, hlen, hdocs⟩ :=
    foldDocs_shape includeImages history.documents
      { documents := [], documentImages := [], omitted := 0 }
  obtain ⟨t, hfirst, hmain⟩ := getMessages_firstText history targetIdx includeImages
  have hdocs' : (assembleDocs includeImages history.documents).documents =
      List.zipWith (fun d c => docBlock d.path c)
        (history.documents.filter (fun d => !d.mute)) contents := by
    simpa [assembleDocs] using hdocs
  have hdoclen : (assembleDocs includeImages history.documents).documents.length =
      (history.documents.filter (fun d => !d.mute)).length := by
    rw [hdocs', List.length_zipWith, hlen, Nat.min_self]
  set acc := assembleDocs includeImages history.documents with hacc
  set omitted2 := (if 0 < acc.documentImages.length ∧ includeImages = false then
      acc.omitted + acc.documentImages.length else acc.omitted) with homit
  refine ⟨contents, if 0 < omitted2 then omittedWarning omitted2 else "", t,
    hlen, ?_, hfirst, ?_⟩
  · by_cases h : 0 < omitted2
    · exact Or.inr ⟨omitted2, h, by rw [if_pos h]⟩
    · exact Or.inl (by rw [if_neg h])
  · rw [hmain]
    have hif : (if 0 < acc.documents.length then
          String.intercalate "\n" acc.documents ++ "\n"
        else "NO SHARED DOCUMENTS\n") =
        (if history.documents.filter (fun d => !d.mute) = [] then "NO SHARED DOCUMENTS\n"
         else String.intercalate "\n"
            (List.zipWith
              (fun d c => "BEGIN DOCUMENT (" ++ d.path ++ ")\n" ++ c ++ "\nEND DOCUMENT")
              (history.documents.filter (fun d => !d.mute)) contents) ++ "\n") := by
      by_cases hnm : history.documents.filter (fun d => !d.mute) = []
      · have h0 : acc.documents.length = 0 := by
          rw [hdoclen, hnm]
          rfl
        rw [if_neg (by omega), if_pos hnm]
      · have hpos : 0 < acc.documents.length := by
          rw [hdoclen]
          exact List.length_pos.mpr hnm
        rw [if_pos hpos, if_neg hnm, hdocs']
        simp [docBlock]
    have hpre : docPreamble acc includeImages =
        ("BEGIN DOCUMENTS\n" ++
          (if history.documents.filter (fun d => !d.mute) = [] then "NO SHARED DOCUMENTS\n"
           else String.intercalate "\n"
              (List.zipWith
                (fun d c => "BEGIN DOCUMENT (" ++ d.path ++ ")\n" ++ c ++ "\nEND DOCUMENT")
                (history.documents.filter (fun d => !d.mute)) contents) ++ "\n") ++
          (if 0 < omitted2 then omittedWarning omitted2 else "") ++
          "END DOCUMENTS\nBEGIN CHAT\n") := by
      simp only [docPreamble, ← homit, hif]
      by_cases h : 0 < omitted2
      · simp only [if_pos h]
      · simp only [if_neg h]
        simp
    rw [hpre]
    simp [String.append_assoc]

/-- The character count of one message content: the length of a plain string
content, or the summed lengths of the text and image-URL strings of the
parts. -/
def contentChars : APIContent → Nat
  | .str s => s.length
  | .parts l =>
    (l.map (fun p =>
      match p with
      | MsgPart.textPart t => t.length
      | MsgPart.imagePart u => u.length)).sum

/-- The total character count of an assembled context. -/
def contextChars (messages : List Message) : Nat :=
  (messages.map (fun m => contentChars m.content)).sum

/-- Modelled from the spec: `getApproxTokens` is imported by view.ts from
api.ts but is absent from the source tree — only its caller
checkCurrentTokens (view.ts) exists.  Per the spec it returns the
deterministic estimate floor(total character count of assembled context /
3.35), computed exactly as L * 20 / 67 in natural-number division. -/
def getApproxTokens (history : ChatHistory) (includeImages : Bool) : Nat :=
  contextChars (getMessages history history.entries.length includeImages) * 20 / 67

/-- **C8** (token estimate): getApproxTokens returns floor(L / 3.35) where L
is the total character count of the assembled context. -/
theorem approx_tokens_floor (history : ChatHistory) (includeImages : Bool) :
    getApproxTokens history includeImages =
      ⌊(contextChars (getMessages history history.entries.length includeImages) : ℚ)
        / 3.35⌋₊ := by
  unfold getApproxTokens
  set L := contextChars (getMessages history history.entries.length includeImages) with hL
  have h : (L : ℚ) / 3.35 = ((L * 20 : ℕ) : ℚ) / ((67 : ℕ) : ℚ) := by
    push_cast
    rw [div_eq_div_iff (by norm_num) (by norm_num)]
    ring
  rw [h, Nat.floor_div_nat, Nat.floor_natCast]

/-- A readable text document used by the C5 witness. -/
def sampleDocument : ChatDocument :=
  { path := "notes/a.md", pin := false, mute := false,
    read := DocRead.ok (some "hello doc"), dataUrl := "" }

/-- A muted document used by the C5 witness. -/
def sampleMutedDocument : ChatDocument :=
  { path := "notes/b.md", pin := false, mute := true,
    read := DocRead.ok (some "muted doc"), dataUrl := "" }

/-- The user entry of the sample transcript. -/
def sampleUserEntry : ChatEntry :=
  { user := true, index := 0,
    swipes := [{ content := "Hello", images := [], thoughts := none }],
    new := none, edit := false, reasoning := false, started := false }

/-- A one-entry transcript with the two sample documents. -/
def sampleHistory : ChatHistory :=
  { entries := [sampleUserEntry],
    documents := [sampleDocument, sampleMutedDocument] }

theorem context_framing_witness :
    ∃ (contents : List String) (w t : String),
      contents.length = (sampleHistory.documents.filter (fun d => !d.mute)).length ∧
      (w = "" ∨ ∃ n, 0 < n ∧ w = omittedWarning n) ∧
      msgFirstText (chatMessages sampleHistory.entries 1 false) = some t ∧
      msgFirstText (getMessages sampleHistory 1 false) =
        some ("BEGIN DOCUMENTS\n" ++
          (if sampleHistory.documents.filter (fun d => !d.mute) = [] then
            "NO SHARED DOCUMENTS\n"
           else String.intercalate "\n"
              (List.zipWith
                (fun d c => "BEGIN DOCUMENT (" ++ d.path ++ ")\n" ++ c ++ "\nEND DOCUMENT")
                (sampleHistory.documents.filter (fun d => !d.mute)) contents) ++ "\n") ++
          w ++ ("END DOCUMENTS\nBEGIN CHAT\n" ++ t)) :=
  context_framing sampleHistory 1 false

/-- The mutable state the handlers registered by send and the abort method
(api.ts) observe: which response head has arrived (selecting which response
handlers are registered) and the `closed` flag of the API object. -/
structure SendState where
  responded : Option Int
  closed : Bool
  deriving DecidableEq, Repr

/-- One occurrence the Node runtime or the user can deliver to the handlers
registered by one send() invocation (api.ts): the response callback firing
with a status, a body data chunk (carrying the SSE items the parser extracts
from it), the response end event, the response close event (carrying the
result of JSON-parsing the accumulated error body for error.message), a
request error, the inactivity timeout, the request close event, and a call
to abort(). -/
inductive NodeEvent where
  | responseHead (status : Int)
  | dataChunk (items : List SseItem)
  | bodyEnd
  | responseClose (errMessage : Option String)
  | reqError (name : String) (msg : String)
  | reqTimeout
  | reqClose
  | userAbort
  deriving Repr

/-- The handler logic of send and abort (api.ts), one delivered occurrence
at a time.  Each branch transcribes the corresponding handler: the response
callback emits status and records the branch taken; the 200-branch data
handler feeds the parser (content events only) and its end handler emits
done; the non-200-branch response close handler emits the formatted HTTP
error with no closed guard; the request error and timeout handlers emit
error only while the closed flag is unset and then set it (the destroy they
call is a runtime effect that later delivers reqClose); the request close
handler sets the flag and emits close; abort() emits abort whenever the flag
is still unset and does not set it itself. -/
def handlerStep (st : SendState) (ev : NodeEvent) : SendState × List ApiEvent :=
  match ev with
  | .responseHead status =>
    ({ st with responded := some status }, [ApiEvent.status status])
  | .dataChunk items =>
    (st, if st.responded = some 200 then (items.map sseItemEvents).flatten else [])
  | .bodyEnd =>
    (st, if st.responded = some 200 then [ApiEvent.done] else [])
  | .responseClose errMessage =>
    (st, match st.responded with
      | some status =>
        if status ≠ 200 then [ApiEvent.error (httpErrorMessage status errMessage)]
        else []
      | none => [])
  | .reqError name msg =>
    if st.closed then (st, [])
    else ({ st with closed := true }, [ApiEvent.error (requestErrorMessage name msg)])
  | .reqTimeout =>
    if st.closed then (st, [])
    else ({ st with closed := true }, [ApiEvent.error timeoutErrorMessage])
  | .reqClose =>
    ({ st with closed := true }, [ApiEvent.close])
  | .userAbort =>
    if st.closed then (st, []) else (st, [ApiEvent.abort])

/-- Folding the handlers over a whole delivery sequence, collecting the
events emitted on the EventEmitter in order. -/
def runHandlers (st : SendState) : List NodeEvent → SendState × List ApiEvent
  | [] => (st, [])
  | ev :: rest =>
    let r1 := handlerStep st ev
    let r2 := runHandlers r1.1 rest
    (r2.1, r1.2 ++ r2.2)

/-- The state at the moment send() has registered its handlers: no response
yet, closed flag unset. -/
def initialSendState : SendState :=
  { responded := none, closed := false }

/-- The events one send() invocation emits for a given delivery sequence. -/
def sendEvents (devs : List NodeEvent) : List ApiEvent :=
  (runHandlers initialSendState devs).2

def isStatusEvent : ApiEvent → Bool
  | .status _ => true
  | _ => false

def isDoneEvent : ApiEvent → Bool
  | .done => true
  | _ => false

def isHeadDelivery : NodeEvent → Bool
  | .responseHead _ => true
  | _ => false

def isBodyEndDelivery : NodeEvent → Bool
  | .bodyEnd => true
  | _ => false

def isReqCloseDelivery : NodeEvent → Bool
  | .reqClose => true
  | _ => false

theorem content_not_status (e : ApiEvent) (h : isContentEvent e = true) :
    isStatusEvent e = false ∧ isDoneEvent e = false := by
  cases e <;> simp_all [isContentEvent, isStatusEvent, isDoneEvent]

theorem runHandlers_append (a b : List NodeEvent) : ∀ st : SendState,
    runHandlers st (a ++ b) =
      ((runHandlers (runHandlers st a).1 b).1,
        (runHandlers st a).2 ++ (runHandlers (runHandlers st a).1 b).2) := by
  induction a with
  | nil => intro st; simp [runHandlers]
  | cons ev rest ih =>
    intro st
    simp [runHandlers, ih, List.append_assoc]

theorem step_status_count (st : SendState) (ev : NodeEvent) :
    ((handlerStep st ev).2).countP (fun e => isStatusEvent e) =
      if isHeadDelivery ev then 1 else 0 := by
  cases ev with
  | responseHead status => simp [handlerStep, isHeadDelivery, isStatusEvent]
  | dataChunk items =>
    have hzero : ((items.map sseItemEvents).flatten).countP
        (fun e => isStatusEvent e) = 0 := by
      rw [List.countP_eq_zero]
      intro e he
      simp [(content_not_status e (streamEvents_content items e he)).1]
    by_cases hr : st.responded = some 200 <;>
      simp [handlerStep, isHeadDelivery, hr, hzero]
  | bodyEnd =>
    by_cases hr : st.responded = some 200 <;>
      simp [handlerStep, isHeadDelivery, hr, isStatusEvent]
  | responseClose errMessage =>
    cases hr : st.responded with
    | none => simp [handlerStep, isHeadDelivery, hr]
    | some status =>
      by_cases hs : status ≠ 200 <;>
        simp [handlerStep, isHeadDelivery, hr, hs, isStatusEvent]
  | reqError name msg =>
    by_cases hc : st.closed <;>
      simp [handlerStep, isHeadDelivery, hc, isStatusEvent]
  | reqTimeout =>
    by_cases hc : st.closed <;>
      simp [handlerStep, isHeadDelivery, hc, isStatusEvent]
  | reqClose => simp [handlerStep, isHeadDelivery, isStatusEvent]
  | userAbort =>
    by_cases hc : st.closed <;>
      simp [handlerStep, isHeadDelivery, hc, isStatusEvent]

theorem step_close_count (st : SendState) (ev : NodeEvent) :
    ((handlerStep st ev).2).countP (fun e => isCloseEvent e) =
      if isReqCloseDelivery ev then 1 else 0 := by
  cases ev with
  | responseHead status => simp [handlerStep, isReqCloseDelivery, isCloseEvent]
  | dataChunk items =>
    have hzero : ((items.map sseItemEvents).flatten).countP
        (fun e => isCloseEvent e) = 0 := by
      rw [List.countP_eq_zero]
      intro e he
      simp [(content_not_terminal e (streamEvents_content items e he)).2]
    by_cases hr : st.responded = some 200 <;>
      simp [handlerStep, isReqCloseDelivery, hr, hzero]
  | bodyEnd =>
    by_cases hr : st.responded = some 200 <;>
      simp [handlerStep, isReqCloseDelivery, hr, isCloseEvent]
  | responseClose errMessage =>
    cases hr : st.responded with
    | none => simp [handlerStep, isReqCloseDelivery, hr]
    | some status =>
      by_cases hs : status ≠ 200 <;>
        simp [handlerStep, isReqCloseDelivery, hr, hs, isCloseEvent]
  | reqError name msg =>
    by_cases hc : st.closed <;>
      simp [handlerStep, isReqCloseDelivery, hc, isCloseEvent]
  | reqTimeout =>
    by_cases hc : st.closed <;>
      simp [handlerStep, isReqCloseDelivery, hc, isCloseEvent]
  | reqClose => simp [handlerStep, isReqCloseDelivery, isCloseEvent]
  | userAbort =>
    by_cases hc : st.closed <;>
      simp [handlerStep, isReqCloseDelivery, hc, isCloseEvent]

theorem step_done_count (st : SendState) (ev : NodeEvent) :
    ((handlerStep st ev).2).countP (fun e => isDoneEvent e) ≤
      if isBodyEndDelivery ev then 1 else 0 := by
  cases ev with
  | responseHead status => simp [handlerStep, isBodyEndDelivery, isDoneEvent]
  | dataChunk items =>
    have hzero : ((items.map sseItemEvents).flatten).countP
        (fun e => isDoneEvent e) = 0 := by
      rw [List.countP_eq_zero]
      intro e he
      simp [(content_not_status e (streamEvents_content items e he)).2]
    by_cases hr : st.responded = some 200 <;>
      simp [handlerStep, isBodyEndDelivery, hr, hzero]
  | bodyEnd =>
    by_cases hr : st.responded = some 200 <;>
      simp [handlerStep, isBodyEndDelivery, hr, isDoneEvent]
  | responseClose errMessage =>
    cases hr : st.responded with
    | none => simp [handlerStep, isBodyEndDelivery, hr]
    | some status =>
      by_cases hs : status ≠ 200 <;>
        simp [handlerStep, isBodyEndDelivery, hr, hs, isDoneEvent]
  | reqError name msg =>
    by_cases hc : st.closed <;>
      simp [handlerStep, isBodyEndDelivery, hc, isDoneEvent]
  | reqTimeout =>
    by_cases hc : st.closed <;>
      simp [handlerStep, isBodyEndDelivery, hc, isDoneEvent]
  | reqClose => simp [handlerStep, isBodyEndDelivery, isDoneEvent]
  | userAbort =>
    by_cases hc : st.closed <;>
      simp [handlerStep, isBodyEndDelivery, hc, isDoneEvent]

theorem run_status_count (devs : List NodeEvent) : ∀ st : SendState,
    ((runHandlers st devs).2).countP (fun e => isStatusEvent e) =
      devs.countP (fun ev => isHeadDelivery ev) := by
  induction devs with
  | nil => intro st; simp [runHandlers]
  | cons ev rest ih =>
    intro st
    simp only [runHandlers, List.countP_append, List.countP_cons,
      step_status_count, ih]
    omega

theorem run_close_count (devs : List NodeEvent) : ∀ st : SendState,
    ((runHandlers st devs).2).countP (fun e => isCloseEvent e) =
      devs.countP (fun ev => isReqCloseDelivery ev) := by
  induction devs with
  | nil => intro st; simp [runHandlers]
  | cons ev rest ih =>
    intro st
    simp only [runHandlers, List.countP_append, List.countP_cons,
      step_close_count, ih]
    omega

theorem run_done_count (devs : List NodeEvent) : ∀ st : SendState,
    ((runHandlers st devs).2).countP (fun e => isDoneEvent e) ≤
      devs.countP (fun ev => isBodyEndDelivery ev) := by
  induction devs with
  | nil => intro st; simp [runHandlers]
  | cons ev rest ih =>
    intro st
    simp only [runHandlers, List.countP_append, List.countP_cons]
    have h1 := step_done_count st ev
    have h2 := ih (handlerStep st ev).1
    exact Nat.le_trans (Nat.add_le_add h1 h2) (Nat.le_of_eq (Nat.add_comm _ _))

theorem step_nonhead (st : SendState) (ev : NodeEvent)
    (hr : st.responded = none) (hnh : isHeadDelivery ev = false) :
    (handlerStep st ev).1.responded = none ∧
      ((handlerStep st ev).2).countP (fun e => isContentEvent e) = 0 := by
  cases ev with
  | responseHead status => simp [isHeadDelivery] at hnh
  | dataChunk items => simp [handlerStep, hr]
  | bodyEnd => simp [handlerStep, hr]
  | responseClose errMessage => simp [handlerStep, hr]
  | reqError name msg =>
    by_cases hc : st.closed <;> simp [handlerStep, hc, hr, isContentEvent]
  | reqTimeout =>
    by_cases hc : st.closed <;> simp [handlerStep, hc, hr, isContentEvent]
  | reqClose => simp [handlerStep, hr, isContentEvent]
  | userAbort =>
    by_cases hc : st.closed <;> simp [handlerStep, hc, hr, isContentEvent]

theorem run_content_split (devs : List NodeEvent) : ∀ st : SendState,
    st.responded = none →
    (((runHandlers st devs).2).countP (fun e => isContentEvent e) = 0) ∨
    (∃ pre c rest, (runHandlers st devs).2 = pre ++ ApiEvent.status c :: rest ∧
      pre.countP (fun e => isContentEvent e) = 0) := by
  induction devs with
  | nil =>
    intro st _
    left
    simp [runHandlers]
  | cons ev rest ih =>
    intro st hst
    by_cases hd : isHeadDelivery ev = true
    · obtain ⟨status, rfl⟩ : ∃ s, ev = NodeEvent.responseHead s := by
        cases ev <;> simp_all [isHeadDelivery]
      right
      refine ⟨[], status,
        (runHandlers { st with responded := some status } rest).2, ?_, by simp⟩
      simp [runHandlers, handlerStep]
    · obtain ⟨hresp, hcnt⟩ :=
        step_nonhead st ev hst (by simpa using hd)
      rcases ih (handlerStep st ev).1 hresp with h | ⟨pre, c, rest2, heq, hpre⟩
      · left
        simp [runHandlers, List.countP_append, hcnt, h]
      · right
        refine ⟨(handlerStep st ev).2 ++ pre, c, rest2, ?_, ?_⟩
        · simp [runHandlers, heq, List.append_assoc]
        · simp [List.countP_append, hcnt, hpre]

/-- A deliverable sequence for a stalled non-200 response: the head arrives
with status 500, the error body stalls until the still-armed 20-second
inactivity timeout fires (the 200-branch socket.setTimeout(0) never ran),
the destroy then closes the response so its close handler parses the
buffered body, and finally the request close event arrives. -/
def stalledErrorDelivery : List NodeEvent :=
  [NodeEvent.responseHead 500, NodeEvent.reqTimeout,
    NodeEvent.responseClose (some "rate limited"), NodeEvent.reqClose]

/-- **C4 counterexample**: on the stalled non-200 delivery the handlers emit
two terminal events — the timeout error and then, because the non-200
response close handler has no closed guard, the formatted HTTP error — so
"at most one of done/error/abort is emitted" is false; the delivery
satisfies every runtime constraint (one request close, delivered last, at
most one response head and one body end). -/
theorem send_two_terminals :
    sendEvents stalledErrorDelivery =
      [ApiEvent.status 500, ApiEvent.error timeoutErrorMessage,
        ApiEvent.error (httpErrorMessage 500 (some "rate limited")), ApiEvent.close] ∧
    (sendEvents stalledErrorDelivery).countP (fun e => isTerminalEvent e) = 2 ∧
    ¬ ((sendEvents stalledErrorDelivery).countP (fun e => isTerminalEvent e) ≤ 1) ∧
    stalledErrorDelivery =
      [NodeEvent.responseHead 500, NodeEvent.reqTimeout,
        NodeEvent.responseClose (some "rate limited")] ++ [NodeEvent.reqClose] ∧
    ([NodeEvent.responseHead 500, NodeEvent.reqTimeout,
        NodeEvent.responseClose (some "rate limited")] : List NodeEvent).countP
      (fun ev => isReqCloseDelivery ev) = 0 ∧
    stalledErrorDelivery.countP (fun ev => isHeadDelivery ev) ≤ 1 ∧
    stalledErrorDelivery.countP (fun ev => isBodyEndDelivery ev) ≤ 1 := by
  refine ⟨?_, ?_, ?_, ?_, ?_, ?_, ?_⟩ <;> first | rfl | decide

/-- **C4 amended**: for every delivery sequence the Node runtime can produce
for one send() invocation — the request close event delivered exactly once
and last, at most one response head, at most one response end — the emitted
trace has at most one status event, no content event before the first
status event, at most one done event, and exactly one close event, emitted
last (hence after every done, error and abort).  The original "at most one
of done/error/abort" does not hold: the still-armed inactivity timeout or an
abort can interleave with the buffering of a non-200 error body, whose
close handler emits error without a closed guard, and abort itself never
sets the closed flag, so error and abort events can repeat. -/
theorem send_trace_ordering_amended (pre : List NodeEvent)
    (hpre : pre.countP (fun ev => isReqCloseDelivery ev) = 0)
    (hhead : (pre ++ [NodeEvent.reqClose]).countP (fun ev => isHeadDelivery ev) ≤ 1)
    (hend : (pre ++ [NodeEvent.reqClose]).countP (fun ev => isBodyEndDelivery ev) ≤ 1) :
    (sendEvents (pre ++ [NodeEvent.reqClose])).countP (fun e => isStatusEvent e) ≤ 1 ∧
    (((sendEvents (pre ++ [NodeEvent.reqClose])).countP
        (fun e => isContentEvent e) = 0) ∨
      ∃ epre c erest, sendEvents (pre ++ [NodeEvent.reqClose]) =
          epre ++ ApiEvent.status c :: erest ∧
        epre.countP (fun e => isContentEvent e) = 0) ∧
    (sendEvents (pre ++ [NodeEvent.reqClose])).countP (fun e => isDoneEvent e) ≤ 1 ∧
    (sendEvents (pre ++ [NodeEvent.reqClose])).countP (fun e => isCloseEvent e) = 1 ∧
    ∃ body, sendEvents (pre ++ [NodeEvent.reqClose]) = body ++ [ApiEvent.close] ∧
      body.countP (fun e => isCloseEvent e) = 0 := by
  refine ⟨?_, ?_, ?_, ?_, ?_⟩
  · simp only [sendEvents]
    rw [run_status_count]
    exact hhead
  · have h := run_content_split (pre ++ [NodeEvent.reqClose]) initialSendState rfl
    simpa only [sendEvents] using h
  · simp only [sendEvents]
    exact le_trans (run_done_count _ initialSendState) hend
  · simp only [sendEvents]
    rw [run_close_count, List.countP_append, hpre]
    decide
  · have happ := runHandlers_append pre [NodeEvent.reqClose] initialSendState
    refine ⟨(runHandlers initialSendState pre).2, ?_, ?_⟩
    · simp only [sendEvents, happ]
      simp [runHandlers, handlerStep]
    · rw [run_close_count]
      exact hpre

/-- A clean streaming delivery used by the C4 witness: head with 200, one
content chunk, body end, then the request close. -/
def cleanStreamDelivery : List NodeEvent :=
  [NodeEvent.responseHead 200, NodeEvent.dataChunk [SseItem.chunk (some sampleDelta)],
    NodeEvent.bodyEnd]

theorem send_trace_ordering_amended_witness :
    (sendEvents (cleanStreamDelivery ++ [NodeEvent.reqClose])).countP
        (fun e => isStatusEvent e) ≤ 1 ∧
    (((sendEvents (cleanStreamDelivery ++ [NodeEvent.reqClose])).countP
        (fun e => isContentEvent e) = 0) ∨
      ∃ epre c erest, sendEvents (cleanStreamDelivery ++ [NodeEvent.reqClose]) =
          epre ++ ApiEvent.status c :: erest ∧
        epre.countP (fun e => isContentEvent e) = 0) ∧
    (sendEvents (cleanStreamDelivery ++ [NodeEvent.reqClose])).countP
        (fun e => isDoneEvent e) ≤ 1 ∧
    (sendEvents (cleanStreamDelivery ++ [NodeEvent.reqClose])).countP
        (fun e => isCloseEvent e) = 1 ∧
    ∃ body, sendEvents (cleanStreamDelivery ++ [NodeEvent.reqClose]) =
        body ++ [ApiEvent.close] ∧
      body.countP (fun e => isCloseEvent e) = 0 :=
  send_trace_ordering_amended cleanStreamDelivery (by decide) (by decide) (by decide)
